import Mathlib

/-!
Shallow embedding of the streaming JSON unnesting engine of the
`unnest-ndjson` repository (src/src/lib.rs, src/src/source.rs), together
with proofs about it.

Bytes are modelled as natural numbers (the code only ever compares bytes
against fixed ASCII values, so no modular arithmetic is needed).  The
byte stream feeding a scanner is modelled as a `List Nat`: the `Source`
buffering layer in the code hands the scanners one byte at a time via
`next()`/`peek()`, failing with `UnexpectedEof` exactly when the stream
is exhausted, so for the scanners the buffered source is observationally
a list of the remaining bytes.  (The buffering layer itself, whose
refill behaviour claim C9 is about, is embedded separately below with an
explicit chunked underlying reader.)

Each scanning function returns the bytes it wrote to its output sink
together with either the remaining input (on success) or an error.
Output already written is returned even on the error path, mirroring
the fact that bytes flushed to a `Write` before an error stay written.
-/

/-- The two error kinds the engine produces: `io::ErrorKind::UnexpectedEof`
and `io::ErrorKind::InvalidData` (the code's "invalid syntax"). -/
inductive Err where
  | eof
  | invalidData
deriving DecidableEq, Repr

instance {α β : Type} [DecidableEq α] [DecidableEq β] : DecidableEq (Except α β) := fun a b =>
  match a, b with
  | Except.error x, Except.error y =>
    if h : x = y then isTrue (by rw [h]) else isFalse (by intro hc; cases hc; exact h rfl)
  | Except.error _, Except.ok _ => isFalse (by intro hc; cases hc)
  | Except.ok _, Except.error _ => isFalse (by intro hc; cases hc)
  | Except.ok x, Except.ok y =>
    if h : x = y then isTrue (by rw [h]) else isFalse (by intro hc; cases hc; exact h rfl)

/-- Result of a scanning step: bytes written so far, and on success the
remaining unread input. -/
abbrev SRes := List Nat × Except Err (List Nat)

/-- Sequence two scanning steps: if the first failed, keep its output and
its error (no further output is produced after a failure); otherwise run
the continuation on the remaining input and concatenate the outputs.
This mirrors Rust's `?` propagation: every scanner returns at the first
error and the callers return immediately as well. -/
def sseq (a : SRes) (k : List Nat → SRes) : SRes :=
  match a with
  | (o, Except.error e) => (o, Except.error e)
  | (o, Except.ok r) =>
    let p := k r
    (o ++ p.1, p.2)

/-- Embedding of `u8::is_ascii_whitespace`: space, horizontal tab, newline, form feed,
carriage return. -/
def isWs (b : Nat) : Bool :=
  b = 32 || b = 9 || b = 10 || b = 12 || b = 13

/-- Embedding of `u8::is_ascii_control`: 0x00..=0x1F and 0x7F. -/
def isCtrl (b : Nat) : Bool :=
  b < 32 || b = 127

/-- The stop set of `scan_primitive` (src/src/lib.rs lines 280-286):
ASCII whitespace, comma, `]`, `}`, colon, or any ASCII control byte. -/
def stopByte (b : Nat) : Bool :=
  isWs b || b = 44 || b = 93 || b = 125 || b = 58 || isCtrl b

/-- Embedding of `u8::is_ascii_hexdigit`. -/
def isHexDigit (b : Nat) : Bool :=
  (48 ≤ b && b ≤ 57) || (65 ≤ b && b ≤ 70) || (97 ≤ b && b ≤ 102)

/-- The short-form escape letters accepted by `parse_string`
(src/src/lib.rs line 307): `" / \ b f r n t`. -/
def isShortEscape (e : Nat) : Bool :=
  e = 34 || e = 47 || e = 92 || e = 98 || e = 102 || e = 114 || e = 110 || e = 116

/-- Embedding of `drop_whitespace` (src/src/lib.rs lines 79-92).  The code
scans the buffered region for the first non-whitespace byte, consuming and
refilling until it finds one; `fill` fails with `UnexpectedEof` exactly
when nothing remains, so at the list level: drop leading ASCII whitespace
and fail with end-of-input if no significant byte remains. -/
def dropWs (input : List Nat) : Except Err (List Nat) :=
  let r := input.dropWhile (fun b => isWs b)
  if r.isEmpty then Except.error Err.eof else Except.ok r

/-- The loop of `parse_string` (src/src/lib.rs lines 299-323), entered
after the opening quote has been written.  On an unescaped `"` it stops
(the closing quote is written after the loop, folded into the stop case
here).  A raw `\r` or `\n` is invalid syntax.  On `\`, a short-form
escape is copied through as the two-byte escape; a `u` escape has its
four following bytes validated as ASCII hex digits one at a time — note
the code writes nothing for a `u` escape.  Any other escape letter is
invalid syntax.  Every other byte is copied through verbatim. -/
def psLoop : List Nat → SRes
  | [] => ([], Except.error Err.eof)
  | b :: r =>
    if b = 34 then ([34], Except.ok r)
    else if b = 13 || b = 10 then ([], Except.error Err.invalidData)
    else if b = 92 then
      match r with
      | [] => ([], Except.error Err.eof)
      | e :: r2 =>
        if isShortEscape e then
          let p := psLoop r2
          (92 :: e :: p.1, p.2)
        else if e = 117 then
          match r2 with
          | [] => ([], Except.error Err.eof)
          | h1 :: r3 =>
            if ¬ isHexDigit h1 then ([], Except.error Err.invalidData)
            else
              match r3 with
              | [] => ([], Except.error Err.eof)
              | h2 :: r4 =>
                if ¬ isHexDigit h2 then ([], Except.error Err.invalidData)
                else
                  match r4 with
                  | [] => ([], Except.error Err.eof)
                  | h3 :: r5 =>
                    if ¬ isHexDigit h3 then ([], Except.error Err.invalidData)
                    else
                      match r5 with
                      | [] => ([], Except.error Err.eof)
                      | h4 :: r6 =>
                        if ¬ isHexDigit h4 then ([], Except.error Err.invalidData)
                        else psLoop r6
        else ([], Except.error Err.invalidData)
    else
      let p := psLoop r
      (b :: p.1, p.2)

/-- Embedding of `parse_string` (src/src/lib.rs lines 297-326): writes the
opening quote, then runs the scanning loop. -/
def parseString (input : List Nat) : SRes :=
  sseq ([34], Except.ok input) psLoop

/-- The loop of `scan_primitive` (src/src/lib.rs lines 279-292): peek the
next byte; stop (without consuming) on a stop byte; stop on end of input
(`while let Ok(b)` treats the peek error as loop exit, not failure);
otherwise consume and copy the byte. -/
def spLoop : List Nat → List Nat × List Nat
  | [] => ([], [])
  | b :: r =>
    if stopByte b then ([], b :: r)
    else
      let p := spLoop r
      (b :: p.1, p.2)

/-- Embedding of `scan_primitive` (src/src/lib.rs lines 273-295): writes
the already-consumed first byte, then copies until a stop byte or end of
input.  It never fails. -/
def scanPrimitive (start : Nat) (input : List Nat) : SRes :=
  let p := spLoop input
  (start :: p.1, Except.ok p.2)

mutual

/-- Embedding of `scan_one` (src/src/lib.rs lines 94-102): consume the
next byte and dispatch — `{` to the object scanner, `[` to the array
scanner, `"` to the string scanner, anything else to the primitive
scanner.  The `fuel` argument bounds the recursion depth of the mutual
block and is an artifact of the embedding: every theorem below carries a
hypothesis that the fuel exceeds the bytes consumed, and fuel exhaustion
is reported as an end-of-input error that such hypotheses rule out. -/
def scanOne : Nat → List Nat → SRes
  | 0, _ => ([], Except.error Err.eof)
  | _ + 1, [] => ([], Except.error Err.eof)
  | f + 1, b :: r =>
    if b = 123 then sseq ([123], Except.ok r) (scanObjItems f)
    else if b = 91 then sseq ([91], Except.ok r) (scanArrItems f)
    else if b = 34 then parseString r
    else scanPrimitive b r

/-- The loop of `scan_object` (src/src/lib.rs lines 216-243), entered
after the opening `{` has been written.  Each iteration: skip
whitespace; read a byte — `,` restarts the loop (the stray-leading-comma
leniency), `}` ends the object (the closing `}` written after the loop
is folded into this stop case), `"` begins a key, anything else is
invalid syntax.  The key is copied through, a mandatory `:` follows
(copied through), then the value via `scan_one`.  The delimiter after
the value: `}` ends the object, `,` continues and is copied through,
anything else is invalid syntax. -/
def scanObjItems : Nat → List Nat → SRes
  | 0, _ => ([], Except.error Err.eof)
  | f + 1, input =>
    match dropWs input with
    | Except.error e => ([], Except.error e)
    | Except.ok r =>
      match r with
      | [] => ([], Except.error Err.eof)
      | s :: r2 =>
        if s = 44 then scanObjItems f r2
        else if s = 125 then ([125], Except.ok r2)
        else if s = 34 then
          sseq (parseString r2) (fun r3 =>
            match dropWs r3 with
            | Except.error e => ([], Except.error e)
            | Except.ok r4 =>
              match r4 with
              | [] => ([], Except.error Err.eof)
              | colon :: r5 =>
                if colon = 58 then
                  sseq ([58], Except.ok r5) (fun r5 =>
                    match dropWs r5 with
                    | Except.error e => ([], Except.error e)
                    | Except.ok r6 =>
                      sseq (scanOne f r6) (fun r7 =>
                        match dropWs r7 with
                        | Except.error e => ([], Except.error e)
                        | Except.ok r8 =>
                          match r8 with
                          | [] => ([], Except.error Err.eof)
                          | delim :: r9 =>
                            if delim = 125 then ([125], Except.ok r9)
                            else if delim = 44 then sseq ([44], Except.ok r9) (scanObjItems f)
                            else ([], Except.error Err.invalidData)))
                else ([], Except.error Err.invalidData))
        else ([], Except.error Err.invalidData)

/-- The loop of `scan_array` (src/src/lib.rs lines 251-268), entered
after the opening `[` has been written.  Each iteration: skip
whitespace; if the next byte (peeked) is `]`, consume it and end the
array (the closing `]` written after the loop is folded into this stop
case); otherwise scan one value, skip whitespace and read the
delimiter: `]` ends the array, `,` continues and is copied through,
anything else is invalid syntax. -/
def scanArrItems : Nat → List Nat → SRes
  | 0, _ => ([], Except.error Err.eof)
  | f + 1, input =>
    match dropWs input with
    | Except.error e => ([], Except.error e)
    | Except.ok r =>
      match r with
      | [] => ([], Except.error Err.eof)
      | s :: r2 =>
        if s = 93 then ([93], Except.ok r2)
        else
          sseq (scanOne f (s :: r2)) (fun r3 =>
            match dropWs r3 with
            | Except.error e => ([], Except.error e)
            | Except.ok r4 =>
              match r4 with
              | [] => ([], Except.error Err.eof)
              | delim :: r5 =>
                if delim = 93 then ([93], Except.ok r5)
                else if delim = 44 then sseq ([44], Except.ok r5) (scanArrItems f)
                else ([], Except.error Err.invalidData))

end

/-- The decimal ASCII rendering of an array index, as produced by
`format!("{}", idx)` in `handle_array` (src/src/lib.rs line 199). -/
def idxBytes (n : Nat) : List Nat :=
  (Nat.toDigits 10 n).map Char.toNat

/-- Embedding of `write_prefix` (src/src/lib.rs lines 133-143): the bytes
of the fragment header, i.e. the literal text of the form
`{"key":[` followed by the comma-joined path segments followed by
`],"value":`.  The segments are stored pre-encoded, so they are written
raw. -/
def headerBytes (path : List (List Nat)) : List Nat :=
  [123, 34, 107, 101, 121, 34, 58, 91] ++
    List.intercalate [44] path ++
    [93, 44, 34, 118, 97, 108, 117, 101, 34, 58]

/-- Result of a `handle_*` step: bytes written, a ghost trace, and on
success the remaining unread input.  The trace records, for each entry
into `handle_one` (each node visited at or above the target depth), the
pair (remaining levels to the target, length of the path stack); it is a
pure observation added for stating the path/depth invariant and changes
no behaviour. -/
abbrev HRes := List Nat × List (Nat × Nat) × Except Err (List Nat)

mutual

/-- Embedding of `handle_one` (src/src/lib.rs lines 104-131).  `d` is the
`depth: usize` of the code: the number of container levels still to
descend before the target (the code counts down and emits at `0`; the
spec describes the same quantity as a signed counter started at
`-target`, so `d` here corresponds to `-depth` of the spec).  At `d = 0`
the node is the fragment: write the header, copy the value via
`scan_one`, and close with the bytes of the text `}` then newline.
Otherwise dispatch on the next byte: containers recurse, while a string
or primitive leaf above the target is emitted as a fragment of its own
with the current path. -/
def handleOne (fuel d : Nat) (input : List Nat) (path : List (List Nat)) : HRes :=
  match fuel, d, input, path with
  | 0, _, _, _ => ([], [], Except.error Err.eof)
  | f + 1, 0, input, path =>
    match scanOne f input with
    | (o, Except.error e) => (headerBytes path ++ o, [(0, path.length)], Except.error e)
    | (o, Except.ok r) =>
      (headerBytes path ++ o ++ [125, 10], [(0, path.length)], Except.ok r)
  | f + 1, d + 1, input, path =>
    match input with
    | [] => ([], [(d + 1, path.length)], Except.error Err.eof)
    | b :: r =>
      if b = 123 then
        let p := handleObjItems f (d + 1) r path
        (p.1, (d + 1, path.length) :: p.2.1, p.2.2)
      else if b = 91 then
        let p := handleArrItems f (d + 1) 0 r path
        (p.1, (d + 1, path.length) :: p.2.1, p.2.2)
      else if b = 34 then
        match parseString r with
        | (o, Except.error e) => (headerBytes path ++ o, [(d + 1, path.length)], Except.error e)
        | (o, Except.ok r2) =>
          (headerBytes path ++ o ++ [125, 10], [(d + 1, path.length)], Except.ok r2)
      else
        match scanPrimitive b r with
        | (o, Except.error e) => (headerBytes path ++ o, [(d + 1, path.length)], Except.error e)
        | (o, Except.ok r2) =>
          (headerBytes path ++ o ++ [125, 10], [(d + 1, path.length)], Except.ok r2)
termination_by structural fuel

/-- The loop of `handle_object` (src/src/lib.rs lines 145-184).  Unlike
`scan_object` it copies no structural bytes (the node is above the
target): the key is captured into a buffer and pushed onto the path
before the value is handled, and popped afterwards (here: the recursive
continuation runs with the original `path`).  A missing `:` after the
key, or a delimiter other than `,` or `}` after a value, is invalid
syntax. -/
def handleObjItems (fuel d : Nat) (input : List Nat) (path : List (List Nat)) : HRes :=
  match fuel, d, input, path with
  | 0, _, _, _ => ([], [], Except.error Err.eof)
  | f + 1, d, input, path =>
    match dropWs input with
    | Except.error e => ([], [], Except.error e)
    | Except.ok r =>
      match r with
      | [] => ([], [], Except.error Err.eof)
      | s :: r2 =>
        if s = 44 then handleObjItems f d r2 path
        else if s = 125 then ([], [], Except.ok r2)
        else if s = 34 then
          match parseString r2 with
          | (_, Except.error e) => ([], [], Except.error e)
          | (key, Except.ok r3) =>
            match dropWs r3 with
            | Except.error e => ([], [], Except.error e)
            | Except.ok r4 =>
              match r4 with
              | [] => ([], [], Except.error Err.eof)
              | colon :: r5 =>
                if colon = 58 then
                  match dropWs r5 with
                  | Except.error e => ([], [], Except.error e)
                  | Except.ok r6 =>
                    match handleOne f (d - 1) r6 (path ++ [key]) with
                    | (o, tr, Except.error e) => (o, tr, Except.error e)
                    | (o, tr, Except.ok r7) =>
                      match dropWs r7 with
                      | Except.error e => (o, tr, Except.error e)
                      | Except.ok r8 =>
                        match r8 with
                        | [] => (o, tr, Except.error Err.eof)
                        | delim :: r9 =>
                          if delim = 125 then (o, tr, Except.ok r9)
                          else if delim = 44 then
                            let p := handleObjItems f d r9 path
                            (o ++ p.1, tr ++ p.2.1, p.2.2)
                          else (o, tr, Except.error Err.invalidData)
                else ([], [], Except.error Err.invalidData)
        else ([], [], Except.error Err.invalidData)
termination_by structural fuel

/-- The loop of `handle_array` (src/src/lib.rs lines 186-212): as the
object loop, but the pushed path segment is the decimal rendering of the
zero-based element index, and an immediate `]` closes the array. -/
def handleArrItems (fuel d idx : Nat) (input : List Nat) (path : List (List Nat)) : HRes :=
  match fuel, d, idx, input, path with
  | 0, _, _, _, _ => ([], [], Except.error Err.eof)
  | f + 1, d, idx, input, path =>
    match dropWs input with
    | Except.error e => ([], [], Except.error e)
    | Except.ok r =>
      match r with
      | [] => ([], [], Except.error Err.eof)
      | s :: r2 =>
        if s = 93 then ([], [], Except.ok r2)
        else
          match handleOne f (d - 1) (s :: r2) (path ++ [idxBytes idx]) with
          | (o, tr, Except.error e) => (o, tr, Except.error e)
          | (o, tr, Except.ok r3) =>
            match dropWs r3 with
            | Except.error e => (o, tr, Except.error e)
            | Except.ok r4 =>
              match r4 with
              | [] => (o, tr, Except.error Err.eof)
              | delim :: r5 =>
                if delim = 93 then (o, tr, Except.ok r5)
                else if delim = 44 then
                  let p := handleArrItems f d (idx + 1) r5 path
                  (o ++ p.1, tr ++ p.2.1, p.2.2)
                else (o, tr, Except.error Err.invalidData)
termination_by structural fuel

end

/-- Embedding of `unnest_to_ndjson` as it stands in src/src/lib.rs lines
72-77: skip leading whitespace, then run a single `handle_one` over one
top-level value with an empty path; errors (including the end-of-input
error `drop_whitespace` raises on an all-whitespace stream) propagate. -/
def unnestToNdjson (f target : Nat) (input : List Nat) : List Nat × Except Err Unit :=
  match dropWs input with
  | Except.error e => ([], Except.error e)
  | Except.ok r =>
    let p := handleOne f target r []
    (p.1, match p.2.2 with
          | Except.error e => Except.error e
          | Except.ok _ => Except.ok ())

/-- Modelled from the spec: the multi-document driver loop of the
repository's current `unnest_to_ndjson` is missing from src/ — the
four-argument, header-style-aware driver invoked by src/tests/ndjson.rs,
src/tests/map.rs, src/tests/overflow.rs, both binaries and both
examples, whose companion modules src/src/sink.rs and src/src/source.rs
are in the tree, while src/src/lib.rs holds an earlier single-document
variant of the engine.  Spec section 4.5: "Loop: skip whitespace; if
end-of-stream, terminate normally; otherwise run one `handle_one` over
the next top-level value", each document starting again from the empty
path.  The path-array header style is the one the in-tree engine
implements, so each document is handled by `handleOne` above.
`loopFuel` bounds the number of loop iterations (an embedding artifact,
as for the scanners); `stepFuel` is the fuel handed to each traversal. -/
def unnestLoop : Nat → Nat → Nat → List Nat → List Nat × Except Err Unit
  | 0, _, _, _ => ([], Except.error Err.eof)
  | n + 1, stepFuel, target, input =>
    match dropWs input with
    | Except.error _ => ([], Except.ok ())
    | Except.ok r =>
      match handleOne stepFuel target r [] with
      | (o, _, Except.error e) => (o, Except.error e)
      | (o, _, Except.ok rest) =>
        let p := unnestLoop n stepFuel target rest
        (o ++ p.1, p.2)

/-- One item of a canonical JSON string literal body: either a raw byte
(copied verbatim by `parse_string`) or a two-byte short-form escape. -/
inductive JItem where
  | raw (b : Nat)
  | esc (e : Nat)

/-- Byte encoding of a string-body item. -/
def jitemBytes : JItem → List Nat
  | JItem.raw b => [b]
  | JItem.esc e => [92, e]

/-- Byte encoding of a string body. -/
def strBytes : List JItem → List Nat
  | [] => []
  | i :: r => jitemBytes i ++ strBytes r

/-- Well-formedness of a string-body item: a raw byte is none of `"`,
`\`, `\r`, `\n`; an escape letter is one of the short-form letters
(`\u` escapes are excluded — they are the subject of claim C2). -/
def wfItem : JItem → Bool
  | JItem.raw b => !(b = 34 || b = 92 || b = 13 || b = 10)
  | JItem.esc e => isShortEscape e

mutual

/-- Canonical JSON values: the byte encodings produced by `enc` below
contain no whitespace between tokens and no `\u` escapes.  Primitives
are an opaque first byte plus an opaque run, as in the code. -/
inductive JVal where
  | str (cs : List JItem)
  | prim (c : Nat) (cs : List Nat)
  | obj (ms : JMembers)
  | arr (vs : JElems)

/-- The member list of a canonical object. -/
inductive JMembers where
  | nil
  | cons (k : List JItem) (v : JVal) (rest : JMembers)

/-- The element list of a canonical array. -/
inductive JElems where
  | nil
  | cons (v : JVal) (rest : JElems)

end

mutual

/-- Byte encoding of a canonical value. -/
def enc : JVal → List Nat
  | JVal.str cs => 34 :: strBytes cs ++ [34]
  | JVal.prim c cs => c :: cs
  | JVal.obj ms => 123 :: encMembers ms
  | JVal.arr vs => 91 :: encElems vs

/-- Byte encoding of an object body after the opening `{`, including the
closing `}`. -/
def encMembers : JMembers → List Nat
  | JMembers.nil => [125]
  | JMembers.cons k v rest =>
    34 :: strBytes k ++ [34] ++ 58 :: enc v ++ delimMembers rest

/-- Byte encoding of the remainder of an object body after a member: the
closing `}` or a comma followed by the remaining members. -/
def delimMembers : JMembers → List Nat
  | JMembers.nil => [125]
  | JMembers.cons k v rest =>
    44 :: 34 :: strBytes k ++ [34] ++ 58 :: enc v ++ delimMembers rest

/-- Byte encoding of an array body after the opening `[`, including the
closing `]`. -/
def encElems : JElems → List Nat
  | JElems.nil => [93]
  | JElems.cons v rest => enc v ++ delimElems rest

/-- Byte encoding of the remainder of an array body after an element. -/
def delimElems : JElems → List Nat
  | JElems.nil => [93]
  | JElems.cons v rest => 44 :: enc v ++ delimElems rest

end

mutual

/-- Well-formedness of a canonical value: string bodies are well-formed,
a primitive starts with a byte that is not a container or string opener
and consists of non-stop bytes, containers are well-formed throughout. -/
def wfV : JVal → Bool
  | JVal.str cs => cs.all wfItem
  | JVal.prim c cs =>
    !stopByte c && !(c = 123 || c = 91 || c = 34) && cs.all (fun b => !stopByte b)
  | JVal.obj ms => wfM ms
  | JVal.arr vs => wfE vs

/-- Well-formedness of an object member list. -/
def wfM : JMembers → Bool
  | JMembers.nil => true
  | JMembers.cons k v rest => k.all wfItem && wfV v && wfM rest

/-- Well-formedness of an array element list. -/
def wfE : JElems → Bool
  | JElems.nil => true
  | JElems.cons v rest => wfV v && wfE rest

end

/-- The input that follows a value must let the scanners stop: empty
input or a leading stop byte. -/
def stopsAt : List Nat → Bool
  | [] => true
  | b :: _ => stopByte b

/-- The stopping condition is only needed when the value is a primitive
(strings and containers carry their own terminator). -/
def restStops : JVal → List Nat → Bool
  | JVal.prim _ _, t => stopsAt t
  | _, _ => true

theorem dropWs_cons {b : Nat} (l : List Nat) (h : isWs b = false) :
    dropWs (b :: l) = Except.ok (b :: l) := by
  simp [dropWs, List.dropWhile_cons, h]

theorem psLoop_rt (cs : List JItem) (h : cs.all wfItem = true) (t : List Nat) :
    psLoop (strBytes cs ++ 34 :: t) = (strBytes cs ++ [34], Except.ok t) := by
  induction cs with
  | nil => simp [strBytes, psLoop.eq_def]
  | cons i r ih =>
    have hi : wfItem i = true := by
      have := List.all_eq_true.mp h i (by simp)
      exact this
    have hr : r.all wfItem = true := by
      refine List.all_eq_true.mpr ?_
      intro x hx
      exact List.all_eq_true.mp h x (by simp [hx])
    cases i with
    | raw b =>
      simp only [wfItem, Bool.not_eq_true'] at hi
      have h34 : b ≠ 34 := by
        intro hb; rw [hb] at hi; simp at hi
      have h92 : b ≠ 92 := by
        intro hb; rw [hb] at hi; simp at hi
      have h13 : b ≠ 13 := by
        intro hb; rw [hb] at hi; simp at hi
      have h10 : b ≠ 10 := by
        intro hb; rw [hb] at hi; simp at hi
      show psLoop (b :: (strBytes r ++ 34 :: t)) = ((b :: strBytes r) ++ [34], Except.ok t)
      rw [psLoop.eq_def]
      simp [h34, h92, h13, h10, ih hr]
    | esc e =>
      have he : isShortEscape e = true := hi
      have h92e : ¬(92 = 34) := by decide
      show psLoop (92 :: e :: (strBytes r ++ 34 :: t)) = ((92 :: e :: strBytes r) ++ [34], Except.ok t)
      rw [psLoop.eq_def]
      simp [he, ih hr]

theorem parseString_rt (cs : List JItem) (h : cs.all wfItem = true) (t : List Nat) :
    parseString (strBytes cs ++ 34 :: t) = (34 :: (strBytes cs ++ [34]), Except.ok t) := by
  simp [parseString, sseq, psLoop_rt cs h t]

theorem spLoop_rt (cs : List Nat) (h : cs.all (fun b => !stopByte b) = true) (t : List Nat)
    (ht : stopsAt t = true) : spLoop (cs ++ t) = (cs, t) := by
  induction cs with
  | nil =>
    cases t with
    | nil => simp [spLoop]
    | cons b r =>
      have hb : stopByte b = true := ht
      rw [spLoop.eq_def]
      simp [hb]
  | cons b r ih =>
    have hb : stopByte b = false := by
      have := List.all_eq_true.mp h b (by simp)
      simpa using this
    have hr : r.all (fun b => !stopByte b) = true := by
      refine List.all_eq_true.mpr ?_
      intro x hx
      exact List.all_eq_true.mp h x (by simp [hx])
    rw [List.cons_append, spLoop.eq_def]
    simp [hb, ih hr]

theorem scanPrimitive_rt (c : Nat) (cs : List Nat)
    (h : cs.all (fun b => !stopByte b) = true) (t : List Nat) (ht : stopsAt t = true) :
    scanPrimitive c (cs ++ t) = (c :: cs, Except.ok t) := by
  simp [scanPrimitive, spLoop_rt cs h t ht]

theorem enc_head (v : JVal) (h : wfV v = true) :
    ∃ b bs, enc v = b :: bs ∧ isWs b = false ∧ b ≠ 93 := by
  cases v with
  | str cs => exact ⟨34, strBytes cs ++ [34], by simp [enc], by decide, by decide⟩
  | prim c cs =>
    have hc : stopByte c = false := by
      simp only [wfV, Bool.and_eq_true, Bool.not_eq_true'] at h
      exact h.1.1
    refine ⟨c, cs, by simp [enc], ?_, ?_⟩
    · simp only [stopByte, Bool.or_eq_false_iff] at hc
      exact hc.1.1.1.1.1
    · intro hb
      rw [hb] at hc
      simp [stopByte, isWs] at hc
  | obj ms => exact ⟨123, encMembers ms, by simp [enc], by decide, by decide⟩
  | arr vs => exact ⟨91, encElems vs, by simp [enc], by decide, by decide⟩

theorem delimMembers_head (ms : JMembers) :
    ∃ b bs, delimMembers ms = b :: bs ∧ stopByte b = true ∧ isWs b = false := by
  cases ms with
  | nil => exact ⟨125, [], by simp [delimMembers], by decide, by decide⟩
  | cons k v rest =>
    exact ⟨44, 34 :: strBytes k ++ [34] ++ 58 :: enc v ++ delimMembers rest,
      by simp [delimMembers], by decide, by decide⟩

theorem delimElems_head (vs : JElems) :
    ∃ b bs, delimElems vs = b :: bs ∧ stopByte b = true ∧ isWs b = false := by
  cases vs with
  | nil => exact ⟨93, [], by simp [delimElems], by decide, by decide⟩
  | cons v rest =>
    exact ⟨44, enc v ++ delimElems rest, by simp [delimElems], by decide, by decide⟩

theorem restStops_of_stop (v : JVal) (t : List Nat) (b : Nat) (bs : List Nat)
    (ht : t = b :: bs) (hb : stopByte b = true) : restStops v t = true := by
  cases v <;> simp [restStops, ht, stopsAt, hb]

theorem scanOne_str (f : Nat) (cs : List JItem) (t : List Nat)
    (h : cs.all wfItem = true) (hf : 1 ≤ f) :
    scanOne f (enc (JVal.str cs) ++ t) = (enc (JVal.str cs), Except.ok t) := by
  obtain ⟨f', rfl⟩ : ∃ f', f = f' + 1 := ⟨f - 1, by omega⟩
  have he : enc (JVal.str cs) ++ t = 34 :: (strBytes cs ++ 34 :: t) := by
    simp [enc]
  rw [he, scanOne.eq_def]
  have h123 : ¬((34 : Nat) = 123) := by decide
  have h91 : ¬((34 : Nat) = 91) := by decide
  simp only [h123, if_false, h91, if_true, if_pos rfl]
  rw [parseString_rt cs h t]
  simp [enc]

theorem scanOne_prim (f : Nat) (c : Nat) (cs : List Nat) (t : List Nat)
    (hwf : wfV (JVal.prim c cs) = true) (ht : stopsAt t = true) (hf : 1 ≤ f) :
    scanOne f (enc (JVal.prim c cs) ++ t) = (enc (JVal.prim c cs), Except.ok t) := by
  obtain ⟨f', rfl⟩ : ∃ f', f = f' + 1 := ⟨f - 1, by omega⟩
  simp only [wfV, Bool.and_eq_true, Bool.not_eq_true', Bool.or_eq_false_iff,
    decide_eq_false_iff_not] at hwf
  obtain ⟨⟨_, ⟨hc123, hc91⟩, hc34⟩, hcs⟩ := hwf
  have he : enc (JVal.prim c cs) ++ t = c :: (cs ++ t) := by simp [enc]
  rw [he, scanOne.eq_def]
  simp only [hc123, if_false, hc91, hc34]
  rw [scanPrimitive_rt c cs hcs t ht]
  simp [enc]

theorem dropWs_enc (v : JVal) (hv : wfV v = true) (x : List Nat) :
    dropWs (enc v ++ x) = Except.ok (enc v ++ x) := by
  obtain ⟨b, bs, hb, hbw, _⟩ := enc_head v hv
  rw [hb, List.cons_append]
  exact @dropWs_cons b _ hbw

theorem dropWs_delimM (ms : JMembers) (x : List Nat) :
    dropWs (delimMembers ms ++ x) = Except.ok (delimMembers ms ++ x) := by
  obtain ⟨b, bs, hb, _, hbw⟩ := delimMembers_head ms
  rw [hb, List.cons_append]
  exact @dropWs_cons b _ hbw

theorem dropWs_delimE (vs : JElems) (x : List Nat) :
    dropWs (delimElems vs ++ x) = Except.ok (delimElems vs ++ x) := by
  obtain ⟨b, bs, hb, _, hbw⟩ := delimElems_head vs
  rw [hb, List.cons_append]
  exact @dropWs_cons b _ hbw

theorem restStops_delimM (v : JVal) (ms : JMembers) (x : List Nat) :
    restStops v (delimMembers ms ++ x) = true := by
  obtain ⟨b, bs, hb, hstop, _⟩ := delimMembers_head ms
  exact restStops_of_stop v _ b (bs ++ x) (by rw [hb, List.cons_append]) hstop

theorem restStops_delimE (v : JVal) (vs : JElems) (x : List Nat) :
    restStops v (delimElems vs ++ x) = true := by
  obtain ⟨b, bs, hb, hstop, _⟩ := delimElems_head vs
  exact restStops_of_stop v _ b (bs ++ x) (by rw [hb, List.cons_append]) hstop

theorem scanObjItems_base (f : Nat) (t : List Nat) :
    scanObjItems (f + 1) (encMembers JMembers.nil ++ t)
      = (encMembers JMembers.nil, Except.ok t) := by
  have h1 : encMembers JMembers.nil ++ t = 125 :: t := by simp [encMembers]
  rw [h1, scanObjItems.eq_def]
  simp [encMembers, dropWs_cons, isWs]

theorem scanArrItems_base (f : Nat) (t : List Nat) :
    scanArrItems (f + 1) (encElems JElems.nil ++ t)
      = (encElems JElems.nil, Except.ok t) := by
  have h1 : encElems JElems.nil ++ t = 93 :: t := by simp [encElems]
  rw [h1, scanArrItems.eq_def]
  simp [encElems, dropWs_cons, isWs]

theorem scanObjItems_step (f' : Nat) (k : List JItem) (v : JVal) (rest : JMembers)
    (t : List Nat) (hk : k.all wfItem = true) (hv : wfV v = true)
    (h1 : scanOne f' (enc v ++ (delimMembers rest ++ t))
            = (enc v, Except.ok (delimMembers rest ++ t)))
    (h2 : scanObjItems f' (encMembers rest ++ t) = (encMembers rest, Except.ok t)) :
    scanObjItems (f' + 1) (encMembers (JMembers.cons k v rest) ++ t)
      = (encMembers (JMembers.cons k v rest), Except.ok t) := by
  have hin : encMembers (JMembers.cons k v rest) ++ t
      = 34 :: (strBytes k ++ 34 :: (58 :: (enc v ++ (delimMembers rest ++ t)))) := by
    simp [encMembers]
  have hgoal : encMembers (JMembers.cons k v rest)
      = 34 :: strBytes k ++ [34] ++ 58 :: enc v ++ delimMembers rest := by
    simp [encMembers]
  rw [hin, hgoal, scanObjItems.eq_def]
  cases rest with
  | nil =>
    simp [delimMembers] at h1
    simp [sseq, parseString_rt k hk, dropWs_cons, isWs, dropWs_enc v hv, h1, delimMembers]
  | cons k2 v2 r2 =>
    simp [delimMembers, encMembers] at h1 h2
    simp [sseq, parseString_rt k hk, dropWs_cons, isWs, dropWs_enc v hv, h1, h2,
      delimMembers, encMembers]

theorem scanArrItems_step (f' : Nat) (v : JVal) (rest : JElems)
    (t : List Nat) (hv : wfV v = true)
    (h1 : scanOne f' (enc v ++ (delimElems rest ++ t))
            = (enc v, Except.ok (delimElems rest ++ t)))
    (h2 : scanArrItems f' (encElems rest ++ t) = (encElems rest, Except.ok t)) :
    scanArrItems (f' + 1) (encElems (JElems.cons v rest) ++ t)
      = (encElems (JElems.cons v rest), Except.ok t) := by
  obtain ⟨b, bs, hb, hbw, hb93⟩ := enc_head v hv
  have hin : encElems (JElems.cons v rest) ++ t
      = b :: (bs ++ (delimElems rest ++ t)) := by
    simp [encElems, hb]
  have hgoal : encElems (JElems.cons v rest) = enc v ++ delimElems rest := by
    simp [encElems]
  have hback : ∀ x : List Nat, b :: (bs ++ x) = enc v ++ x := by
    intro x
    simp [hb]
  rw [hin, hgoal, scanArrItems.eq_def]
  cases rest with
  | nil =>
    simp [delimElems] at h1
    simp only [delimElems]
    simp [sseq, @dropWs_cons b _ hbw, hb93]
    rw [hback]
    simp [h1, @dropWs_cons 93 t (by decide)]
  | cons v2 r2 =>
    simp [delimElems, encElems] at h1 h2
    simp only [delimElems, encElems]
    simp [sseq, @dropWs_cons b _ hbw, hb93]
    rw [hback]
    simp [h1, h2, dropWs_cons, isWs]

theorem enc_length_pos (v : JVal) : 1 ≤ (enc v).length := by
  cases v <;> simp [enc]

theorem encMembers_le_delim (ms : JMembers) :
    (encMembers ms).length ≤ (delimMembers ms).length := by
  cases ms <;> simp [encMembers, delimMembers]

theorem encElems_le_delim (vs : JElems) :
    (encElems vs).length ≤ (delimElems vs).length := by
  cases vs <;> simp [encElems, delimElems]

theorem delimMembers_length_pos (ms : JMembers) : 1 ≤ (delimMembers ms).length := by
  cases ms <;> simp [delimMembers]

theorem delimElems_length_pos (vs : JElems) : 1 ≤ (delimElems vs).length := by
  cases vs <;> simp [delimElems]

mutual

theorem scanOne_rt (v : JVal) (t : List Nat) (f : Nat) (hv : wfV v = true)
    (ht : restStops v t = true) (hf : (enc v).length < f) :
    scanOne f (enc v ++ t) = (enc v, Except.ok t) := by
  cases v with
  | str cs =>
    exact scanOne_str f cs t (by simpa [wfV] using hv) (by omega)
  | prim c cs =>
    exact scanOne_prim f c cs t hv (by simpa [restStops] using ht) (by omega)
  | obj ms =>
    obtain ⟨f', rfl⟩ : ∃ f', f = f' + 1 := ⟨f - 1, by omega⟩
    have hm : wfM ms = true := by simpa [wfV] using hv
    have hlen : (encMembers ms).length < f' := by
      have : (enc (JVal.obj ms)).length = (encMembers ms).length + 1 := by simp [enc]
      omega
    have hrec := scanObjItems_rt ms t f' hm hlen
    have hin : enc (JVal.obj ms) ++ t = 123 :: (encMembers ms ++ t) := by simp [enc]
    rw [hin, scanOne.eq_def]
    simp [sseq, hrec, enc]
  | arr vs =>
    obtain ⟨f', rfl⟩ : ∃ f', f = f' + 1 := ⟨f - 1, by omega⟩
    have hm : wfE vs = true := by simpa [wfV] using hv
    have hlen : (encElems vs).length < f' := by
      have : (enc (JVal.arr vs)).length = (encElems vs).length + 1 := by simp [enc]
      omega
    have hrec := scanArrItems_rt vs t f' hm hlen
    have hin : enc (JVal.arr vs) ++ t = 91 :: (encElems vs ++ t) := by simp [enc]
    rw [hin, scanOne.eq_def]
    simp [sseq, hrec, enc]

theorem scanObjItems_rt (ms : JMembers) (t : List Nat) (f : Nat) (hm : wfM ms = true)
    (hf : (encMembers ms).length < f) :
    scanObjItems f (encMembers ms ++ t) = (encMembers ms, Except.ok t) := by
  cases ms with
  | nil =>
    obtain ⟨f', rfl⟩ : ∃ f', f = f' + 1 := ⟨f - 1, by omega⟩
    exact scanObjItems_base f' t
  | cons k v rest =>
    obtain ⟨f', rfl⟩ : ∃ f', f = f' + 1 := ⟨f - 1, by omega⟩
    have hk : k.all wfItem = true := by
      simp [wfM, Bool.and_eq_true] at hm
      exact List.all_eq_true.mpr hm.1.1
    have hv : wfV v = true := by
      simp [wfM, Bool.and_eq_true] at hm
      exact hm.1.2
    have hrest : wfM rest = true := by
      simp [wfM, Bool.and_eq_true] at hm
      exact hm.2
    have hlen : (encMembers (JMembers.cons k v rest)).length
        = (strBytes k).length + (enc v).length + (delimMembers rest).length + 3 := by
      simp [encMembers]
      omega
    have hvlen : (enc v).length < f' := by
      have := delimMembers_length_pos rest
      omega
    have hrlen : (encMembers rest).length < f' := by
      have h1 := encMembers_le_delim rest
      have h2 := enc_length_pos v
      omega
    exact scanObjItems_step f' k v rest t hk hv
      (scanOne_rt v (delimMembers rest ++ t) f' hv (restStops_delimM v rest t) hvlen)
      (scanObjItems_rt rest t f' hrest hrlen)

theorem scanArrItems_rt (vs : JElems) (t : List Nat) (f : Nat) (hm : wfE vs = true)
    (hf : (encElems vs).length < f) :
    scanArrItems f (encElems vs ++ t) = (encElems vs, Except.ok t) := by
  cases vs with
  | nil =>
    obtain ⟨f', rfl⟩ : ∃ f', f = f' + 1 := ⟨f - 1, by omega⟩
    exact scanArrItems_base f' t
  | cons v rest =>
    obtain ⟨f', rfl⟩ : ∃ f', f = f' + 1 := ⟨f - 1, by omega⟩
    have hv : wfV v = true := by
      simp [wfE, Bool.and_eq_true] at hm
      exact hm.1
    have hrest : wfE rest = true := by
      simp [wfE, Bool.and_eq_true] at hm
      exact hm.2
    have hlen : (encElems (JElems.cons v rest)).length
        = (enc v).length + (delimElems rest).length := by
      simp [encElems]
    have hvlen : (enc v).length < f' := by
      have := delimElems_length_pos rest
      omega
    have hrlen : (encElems rest).length < f' := by
      have h1 := encElems_le_delim rest
      have h2 := enc_length_pos v
      omega
    exact scanArrItems_step f' v rest t hv
      (scanOne_rt v (delimElems rest ++ t) f' hv (restStops_delimE v rest t) hvlen)
      (scanArrItems_rt rest t f' hrest hrlen)

end

/-- The property claim C6 is about, for one recorded trace: every entry
(levels-to-target, path length) satisfies the given bound and the given
affine relation between path length and remaining depth. -/
def TraceOK (b l : Nat) (tr : List (Nat × Nat)) : Prop :=
  ∀ p ∈ tr, p.1 ≤ b ∧ p.2 = l + (b - p.1)

theorem traceOK_nil (b l : Nat) : TraceOK b l [] := by
  intro p hp
  simp at hp

theorem traceOK_single (b l : Nat) : TraceOK b l [(b, l)] := by
  intro p hp
  simp at hp
  subst hp
  exact ⟨Nat.le_refl b, by omega⟩

theorem traceOK_cons_self (b l : Nat) (tr : List (Nat × Nat)) (h : TraceOK b l tr) :
    TraceOK b l ((b, l) :: tr) := by
  intro p hp
  rcases List.mem_cons.mp hp with h1 | h2
  · subst h1
    exact ⟨Nat.le_refl b, by omega⟩
  · exact h p h2

theorem traceOK_append (b l : Nat) (t1 t2 : List (Nat × Nat))
    (h1 : TraceOK b l t1) (h2 : TraceOK b l t2) : TraceOK b l (t1 ++ t2) := by
  intro p hp
  rcases List.mem_append.mp hp with h | h
  · exact h1 p h
  · exact h2 p h

theorem traceOK_step (b l : Nat) (tr : List (Nat × Nat)) (h : TraceOK b (l + 1) tr) :
    TraceOK (b + 1) l tr := by
  intro p hp
  obtain ⟨ha, hb⟩ := h p hp
  exact ⟨by omega, by omega⟩

/-- The path/depth relation maintained by the traversal, proved for the
three mutually recursive handlers at once by induction on the fuel: at
every `handle_one` entry recorded in the ghost trace, the remaining
depth never exceeds the depth at the start of the enclosing call, and
the path length always equals the enclosing path length plus the number
of levels descended since. -/
theorem handle_trace_inv : ∀ f : Nat,
    (∀ d input path, TraceOK d path.length (handleOne f d input path).2.1) ∧
    (∀ d input path, TraceOK (d - 1) (path.length + 1) (handleObjItems f d input path).2.1) ∧
    (∀ d idx input path, TraceOK (d - 1) (path.length + 1)
      (handleArrItems f d idx input path).2.1) := by
  intro f
  induction f with
  | zero =>
    refine ⟨?_, ?_, ?_⟩
    · intro d input path
      exact traceOK_nil _ _
    · intro d input path
      exact traceOK_nil _ _
    · intro d idx input path
      exact traceOK_nil _ _
  | succ f ih =>
    obtain ⟨ih1, ih2, ih3⟩ := ih
    refine ⟨?_, ?_, ?_⟩
    · intro d input path
      match d with
      | 0 =>
        rcases hs : scanOne f input with ⟨o, res⟩
        cases res with
        | error e =>
          have hu : (handleOne (f + 1) 0 input path).2.1 = [(0, path.length)] := by
            rw [handleOne.eq_def]
            simp [hs]
          rw [hu]
          exact traceOK_single _ _
        | ok r =>
          have hu : (handleOne (f + 1) 0 input path).2.1 = [(0, path.length)] := by
            rw [handleOne.eq_def]
            simp [hs]
          rw [hu]
          exact traceOK_single _ _
      | d + 1 =>
        cases input with
        | nil =>
          have hu : (handleOne (f + 1) (d + 1) [] path).2.1 = [(d + 1, path.length)] := by
            rw [handleOne.eq_def]
          rw [hu]
          exact traceOK_single _ _
        | cons b r =>
          by_cases hb123 : b = 123
          · have hu : (handleOne (f + 1) (d + 1) (b :: r) path).2.1
                = (d + 1, path.length) :: (handleObjItems f (d + 1) r path).2.1 := by
              rw [handleOne.eq_def]
              simp [hb123]
            rw [hu]
            refine traceOK_cons_self _ _ _ (traceOK_step _ _ _ ?_)
            simpa using ih2 (d + 1) r path
          · by_cases hb91 : b = 91
            · have hu : (handleOne (f + 1) (d + 1) (b :: r) path).2.1
                  = (d + 1, path.length) :: (handleArrItems f (d + 1) 0 r path).2.1 := by
                rw [handleOne.eq_def]
                simp [hb123, hb91]
              rw [hu]
              refine traceOK_cons_self _ _ _ (traceOK_step _ _ _ ?_)
              simpa using ih3 (d + 1) 0 r path
            · by_cases hb34 : b = 34
              · rcases hs : parseString r with ⟨o, res⟩
                have hu : (handleOne (f + 1) (d + 1) (b :: r) path).2.1
                    = [(d + 1, path.length)] := by
                  rw [handleOne.eq_def]
                  cases res <;> simp [hb123, hb91, hb34, hs]
                rw [hu]
                exact traceOK_single _ _
              · rcases hs : scanPrimitive b r with ⟨o, res⟩
                have hu : (handleOne (f + 1) (d + 1) (b :: r) path).2.1
                    = [(d + 1, path.length)] := by
                  rw [handleOne.eq_def]
                  cases res <;> simp [hb123, hb91, hb34, hs]
                rw [hu]
                exact traceOK_single _ _
    · intro d input path
      rw [handleObjItems.eq_def]
      rcases hdw : dropWs input with e | r
      · simp [hdw]
        exact traceOK_nil _ _
      · simp only [hdw]
        cases r with
        | nil =>
          simp
          exact traceOK_nil _ _
        | cons s r2 =>
          by_cases hs44 : s = 44
          · simp [hs44]
            exact ih2 d r2 path
          · by_cases hs125 : s = 125
            · simp [hs44, hs125]
              exact traceOK_nil _ _
            · by_cases hs34 : s = 34
              · rcases hps : parseString r2 with ⟨key, res⟩
                cases res with
                | error e =>
                  simp [hs44, hs125, hs34, hps]
                  exact traceOK_nil _ _
                | ok r3 =>
                  rcases hdw2 : dropWs r3 with e2 | r4
                  · simp [hs44, hs125, hs34, hps, hdw2]
                    exact traceOK_nil _ _
                  · cases r4 with
                    | nil =>
                      simp [hs44, hs125, hs34, hps, hdw2]
                      exact traceOK_nil _ _
                    | cons colon r5 =>
                      by_cases hc : colon = 58
                      · rcases hdw3 : dropWs r5 with e3 | r6
                        · simp [hs44, hs125, hs34, hps, hdw2, hc, hdw3]
                          exact traceOK_nil _ _
                        · have hrec : TraceOK (d - 1) (path.length + 1)
                              (handleOne f (d - 1) r6 (path ++ [key])).2.1 := by
                            simpa using ih1 (d - 1) r6 (path ++ [key])
                          rcases hh : handleOne f (d - 1) r6 (path ++ [key]) with ⟨o2, tr, res2⟩
                          rw [hh] at hrec
                          cases res2 with
                          | error e4 =>
                            simp [hs44, hs125, hs34, hps, hdw2, hc, hdw3, hh]
                            exact hrec
                          | ok r7 =>
                            rcases hdw4 : dropWs r7 with e5 | r8
                            · simp [hs44, hs125, hs34, hps, hdw2, hc, hdw3, hh, hdw4]
                              exact hrec
                            · cases r8 with
                              | nil =>
                                simp [hs44, hs125, hs34, hps, hdw2, hc, hdw3, hh, hdw4]
                                exact hrec
                              | cons delim r9 =>
                                by_cases hd125 : delim = 125
                                · simp [hs44, hs125, hs34, hps, hdw2, hc, hdw3, hh, hdw4, hd125]
                                  exact hrec
                                · by_cases hd44 : delim = 44
                                  · simp [hs44, hs125, hs34, hps, hdw2, hc, hdw3, hh, hdw4,
                                      hd125, hd44]
                                    exact traceOK_append _ _ _ _ hrec (ih2 d r9 path)
                                  · simp [hs44, hs125, hs34, hps, hdw2, hc, hdw3, hh, hdw4,
                                      hd125, hd44]
                                    exact hrec
                      · simp [hs44, hs125, hs34, hps, hdw2, hc]
                        exact traceOK_nil _ _
              · simp [hs44, hs125, hs34]
                exact traceOK_nil _ _
    · intro d idx input path
      rw [handleArrItems.eq_def]
      rcases hdw : dropWs input with e | r
      · simp [hdw]
        exact traceOK_nil _ _
      · simp only [hdw]
        cases r with
        | nil =>
          simp
          exact traceOK_nil _ _
        | cons s r2 =>
          by_cases hs93 : s = 93
          · simp [hs93]
            exact traceOK_nil _ _
          · have hrec : TraceOK (d - 1) (path.length + 1)
                (handleOne f (d - 1) (s :: r2) (path ++ [idxBytes idx])).2.1 := by
              simpa using ih1 (d - 1) (s :: r2) (path ++ [idxBytes idx])
            rcases hh : handleOne f (d - 1) (s :: r2) (path ++ [idxBytes idx])
              with ⟨o2, tr, res2⟩
            rw [hh] at hrec
            cases res2 with
            | error e4 =>
              simp [hs93, hh]
              exact hrec
            | ok r3 =>
              rcases hdw2 : dropWs r3 with e5 | r4
              · simp [hs93, hh, hdw2]
                exact hrec
              · cases r4 with
                | nil =>
                  simp [hs93, hh, hdw2]
                  exact hrec
                | cons delim r5 =>
                  by_cases hd93 : delim = 93
                  · simp [hs93, hh, hdw2, hd93]
                    exact hrec
                  · by_cases hd44 : delim = 44
                    · simp [hs93, hh, hdw2, hd93, hd44]
                      exact traceOK_append _ _ _ _ hrec (ih3 d (idx + 1) r5 path)
                    · simp [hs93, hh, hdw2, hd93, hd44]
                      exact hrec

/-- Capacity of the `Source` buffer: `16 * 1024` (src/src/source.rs line 9,
identically src/src/lib.rs line 9). -/
def bufCap : Nat := 16 * 1024

/-- State of the buffered source of src/src/source.rs (and the identical
copy in src/src/lib.rs): `pos` counts consumed bytes still occupying the
front of the buffer, `pending` is the unread region `buf[pos..len]`
(so `len = pos + pending.length`), and `inner` is the underlying reader,
modelled as the sequence of byte chunks its successive `read` calls
produce — a chunk longer than the requested capacity is split, and an
empty chunk is a `read` returning `Ok(0)`, the end-of-stream signal. -/
structure SourceSt where
  pos : Nat
  pending : List Nat
  inner : List (List Nat)
deriving DecidableEq, Repr

/-- Model of `iowrap::ReadMany::read_many`, the multi-read helper: keep
issuing reads into the remaining free space until the space is full or a
read returns zero bytes; short reads are retried, not treated as
end-of-stream.  Returns the bytes obtained and the rest of the reader. -/
def readMany (cap : Nat) : List (List Nat) → List Nat × List (List Nat)
  | [] => ([], [])
  | c :: rest =>
    if cap = 0 then ([], c :: rest)
    else if c.length = 0 then ([], rest)
    else if c.length ≤ cap then
      let p := readMany (cap - c.length) rest
      (c ++ p.1, p.2)
    else (c.take cap, c.drop cap :: rest)

/-- Embedding of `Source::fill` (src/src/source.rs lines 29-41, and the
identical src/src/lib.rs lines 24-36): if the unread region is empty,
reset to the start of the buffer; read as much as possible into the free
space via the multi-read helper; fail with `UnexpectedEof` exactly when
zero bytes were obtained AND the buffer holds zero bytes (`0 == found &&
0 == self.len`); otherwise append what was read. -/
def fill (st : SourceSt) : Except Err SourceSt :=
  let st1 := if st.pending.isEmpty then { st with pos := 0 } else st
  let free := bufCap - (st1.pos + st1.pending.length)
  let p := readMany free st1.inner
  if p.1.isEmpty ∧ st1.pos + st1.pending.length = 0 then Except.error Err.eof
  else Except.ok { st1 with pending := st1.pending ++ p.1, inner := p.2 }

theorem readMany_nil_of_empty (cap : Nat) (inner : List (List Nat))
    (hc : ∀ c ∈ inner, c ≠ []) (hcap : cap ≠ 0)
    (h : (readMany cap inner).1 = []) : inner = [] := by
  cases inner with
  | nil => rfl
  | cons c rest =>
    exfalso
    have hcne : c ≠ [] := hc c (by simp)
    have hlen : c.length ≠ 0 := by
      simpa using hcne
    rw [readMany.eq_def] at h
    simp only [hcap, if_false, hlen] at h
    by_cases hle : c.length ≤ cap
    · simp [hle] at h
      exact hcne h.1
    · simp [hle] at h
      rcases h with h | h
      · exact hcap h
      · exact hcne h

theorem fill_eof_iff (st : SourceSt) (hc : ∀ c ∈ st.inner, c ≠ []) :
    fill st = Except.error Err.eof ↔ (st.pending = [] ∧ st.inner = []) := by
  constructor
  · intro h
    rw [fill.eq_def] at h
    split at h
    next hemp =>
      have hpe : st.pending = [] := by
        simpa [List.isEmpty_iff] using hemp
      dsimp only at h
      split at h
      next hcond =>
        refine ⟨hpe, ?_⟩
        refine readMany_nil_of_empty (bufCap - (0 + st.pending.length)) st.inner
          (by simpa using hc) ?_ ?_
        · simp [hpe, bufCap]
        · simpa [List.isEmpty_iff] using hcond.1
      next hcond => simp at h
    next hemp =>
      have hpe : st.pending ≠ [] := by
        simpa [List.isEmpty_iff] using hemp
      dsimp only at h
      split at h
      next hcond =>
        have : st.pending.length ≠ 0 := by simpa using hpe
        omega
      next hcond => simp at h
  · intro h
    obtain ⟨h1, h2⟩ := h
    rw [fill.eq_def]
    simp [h1, h2, readMany, bufCap]

theorem parseString_raw_break (b : Nat) (hb : b = 13 ∨ b = 10) (t : List Nat) :
    parseString (b :: t) = ([34], Except.error Err.invalidData) := by
  have h34 : b ≠ 34 := by rcases hb with h | h <;> omega
  rw [parseString, sseq, psLoop.eq_def]
  rcases hb with h | h <;> simp [h]

theorem parseString_bad_escape (e : Nat) (he : isShortEscape e = false) (hu : e ≠ 117)
    (t : List Nat) : parseString (92 :: e :: t) = ([34], Except.error Err.invalidData) := by
  rw [parseString, sseq, psLoop.eq_def]
  simp [he, hu]

theorem parseString_bad_hex (h1 h2 h3 h4 : Nat) (t : List Nat)
    (hbad : ¬(isHexDigit h1 = true ∧ isHexDigit h2 = true ∧ isHexDigit h3 = true ∧
      isHexDigit h4 = true)) :
    parseString (92 :: 117 :: h1 :: h2 :: h3 :: h4 :: t)
      = ([34], Except.error Err.invalidData) := by
  rw [parseString, sseq, psLoop.eq_def]
  by_cases e1 : isHexDigit h1 = true
  · by_cases e2 : isHexDigit h2 = true
    · by_cases e3 : isHexDigit h3 = true
      · by_cases e4 : isHexDigit h4 = true
        · exact absurd ⟨e1, e2, e3, e4⟩ hbad
        · simp [isShortEscape, e1, e2, e3, e4]
      · simp [isShortEscape, e1, e2, e3]
    · simp [isShortEscape, e1, e2]
  · simp [isShortEscape, e1]

theorem handleObjItems_missing_colon (f d : Nat) (kr key : List Nat) (c : Nat)
    (t : List Nat) (path : List (List Nat))
    (hk : parseString kr = (key, Except.ok (c :: t)))
    (hw : isWs c = false) (hc : c ≠ 58) :
    handleObjItems (f + 1) d (34 :: kr) path = ([], [], Except.error Err.invalidData) := by
  rw [handleObjItems.eq_def]
  simp [@dropWs_cons 34 kr (by decide), hk, @dropWs_cons c t hw, hc]

theorem dropWhile_ws_append (w x : List Nat) (hw : ∀ b ∈ w, isWs b = true) :
    (w ++ x).dropWhile (fun b => isWs b) = x.dropWhile (fun b => isWs b) := by
  induction w with
  | nil => simp
  | cons b r ih =>
    have hb : isWs b = true := hw b (by simp)
    have hr : ∀ b ∈ r, isWs b = true := by
      intro y hy
      exact hw y (by simp [hy])
    simp [List.dropWhile_cons, hb, ih hr]

theorem unnestLoop_ws_only (input : List Nat) (hws : ∀ b ∈ input, isWs b = true)
    (lf sf target : Nat) (hlf : 0 < lf) :
    unnestLoop lf sf target input = ([], Except.ok ()) := by
  obtain ⟨n, rfl⟩ : ∃ n, lf = n + 1 := ⟨lf - 1, by omega⟩
  have hdrop : input.dropWhile (fun b => isWs b) = [] :=
    List.dropWhile_eq_nil_iff.mpr (by simpa using hws)
  rw [unnestLoop.eq_def]
  simp [dropWs, hdrop]

/-- The byte stream formed by interleaving whitespace runs and top-level
documents: each item is (whitespace before the document, the document
bytes, the expected output for that document), with trailing whitespace
at the end of the stream. -/
def streamOf : List (List Nat × List Nat × List Nat) → List Nat → List Nat
  | [], tailWs => tailWs
  | (w, doc, _) :: rest, tailWs => w ++ (doc ++ streamOf rest tailWs)

/-- The conditions under which an item list describes a well-behaved
multi-document stream: every separator is ASCII whitespace, every
document starts at a significant byte, and the traversal of each
document consumes exactly its bytes, produces exactly its expected
output and succeeds. -/
def streamSpec (sf target : Nat) : List (List Nat × List Nat × List Nat) → List Nat → Bool
  | [], _ => true
  | (w, doc, out) :: rest, tailWs =>
    w.all (fun b => isWs b) &&
    decide (doc.dropWhile (fun b => isWs b) = doc) &&
    !doc.isEmpty &&
    decide ((handleOne sf target (doc ++ streamOf rest tailWs) []).1 = out) &&
    decide ((handleOne sf target (doc ++ streamOf rest tailWs) []).2.2
      = Except.ok (streamOf rest tailWs)) &&
    streamSpec sf target rest tailWs

theorem unnestLoop_stream (items : List (List Nat × List Nat × List Nat)) :
    ∀ (tailWs : List Nat) (sf target lf : Nat),
    (∀ b ∈ tailWs, isWs b = true) → streamSpec sf target items tailWs = true →
    items.length < lf →
    unnestLoop lf sf target (streamOf items tailWs)
      = ((items.map (fun x => x.2.2)).flatten, Except.ok ()) := by
  induction items with
  | nil =>
    intro tws sf target lf hws hspec hlf
    simpa [streamOf] using unnestLoop_ws_only tws hws lf sf target (by omega)
  | cons item rest ih =>
    obtain ⟨w, doc, out⟩ := item
    intro tws sf target lf hws hspec hlf
    obtain ⟨n, rfl⟩ : ∃ n, lf = n + 1 := ⟨lf - 1, by omega⟩
    simp only [streamSpec, Bool.and_eq_true, decide_eq_true_eq, List.all_eq_true,
      Bool.not_eq_true', List.isEmpty_iff] at hspec
    obtain ⟨⟨⟨⟨⟨hw, hdoc⟩, hne⟩, hout⟩, hrest⟩, hspec2⟩ := hspec
    have hne2 : doc ≠ [] := by simpa using hne
    have hdw : dropWs (w ++ (doc ++ streamOf rest tws))
        = Except.ok (doc ++ streamOf rest tws) := by
      have h1 : (w ++ (doc ++ streamOf rest tws)).dropWhile (fun b => isWs b)
          = doc ++ streamOf rest tws := by
        rw [dropWhile_ws_append w _ (by simpa using hw)]
        cases hdc : doc with
        | nil => exact absurd hdc hne2
        | cons b r =>
          have hbw : isWs b = false := by
            have hthis := hdoc
            rw [hdc] at hthis
            by_contra hbw
            simp only [Bool.not_eq_false] at hbw
            simp only [List.dropWhile_cons, hbw, if_true] at hthis
            have hlen := congrArg List.length hthis
            have hle : (List.dropWhile (fun b : Nat => isWs b) r).length ≤ r.length :=
              (List.dropWhile_sublist (fun b => isWs b)).length_le
            simp at hlen
            omega
          simp [List.dropWhile_cons, hbw, hdc]
      rw [dropWs, h1]
      simp [hne2]
    rcases heq : handleOne sf target (doc ++ streamOf rest tws) [] with ⟨o, tr, res⟩
    rw [heq] at hout hrest
    simp only at hout hrest
    subst hout
    subst hrest
    have hrec := ih tws sf target n (by simpa using hws) hspec2 (by simpa using hlf)
    rw [unnestLoop.eq_def]
    simp [streamOf, hdw, heq, hrec]

/-- C1, counterexample: the claim says every byte of a nested structure
scanned inside a fragment is copied through unchanged, so fragment bytes
equal the input bytes.  On input `[ 5]` (bytes 91 32 53 93) `scan_one`
consumes all four bytes but emits `[5]` (91 53 93): the whitespace byte
between structural tokens is skipped, not copied. -/
theorem c1_counterexample :
    scanOne 6 [91, 32, 53, 93] = ([91, 53, 93], Except.ok []) ∧
    ([91, 53, 93] : List Nat) ≠ [91, 32, 53, 93] := by decide

/-- C1, amended: for every canonical JSON value — one with no whitespace
between tokens and no `\u` escapes (the latter are dropped by
`parse_string`, the separate finding of claim C2) — the scanner used
inside a fragment consumes exactly the value's bytes and copies them
through unchanged, so fragment bytes equal input bytes on such values.
String contents and primitive tokens are always copied verbatim;
structural punctuation is re-emitted; only inter-token whitespace is
lost. -/
theorem c1_theorem (v : JVal) (t : List Nat) (f : Nat) (hv : wfV v = true)
    (ht : restStops v t = true) (hf : (enc v).length < f) :
    scanOne f (enc v ++ t) = (enc v, Except.ok t) :=
  scanOne_rt v t f hv ht hf

theorem c1_witness :
    wfV (JVal.obj (JMembers.cons [JItem.raw 97] (JVal.prim 53 []) JMembers.nil)) = true ∧
    restStops (JVal.obj (JMembers.cons [JItem.raw 97] (JVal.prim 53 []) JMembers.nil)) [] = true ∧
    (enc (JVal.obj (JMembers.cons [JItem.raw 97] (JVal.prim 53 []) JMembers.nil))).length < 10 ∧
    scanOne 10
        (enc (JVal.obj (JMembers.cons [JItem.raw 97] (JVal.prim 53 []) JMembers.nil)) ++ [])
      = (enc (JVal.obj (JMembers.cons [JItem.raw 97] (JVal.prim 53 []) JMembers.nil)),
         Except.ok []) :=
  ⟨by decide, by decide, by decide,
    c1_theorem (JVal.obj (JMembers.cons [JItem.raw 97] (JVal.prim 53 []) JMembers.nil))
      [] 10 (by decide) (by decide) (by decide)⟩

/-- C2: the claim (and the repository's own test
tests/ndjson.rs::unicodes_str) says a `\u` escape with four valid hex
digits is validated and copied through unchanged.  The `parse_string` in
src/src/lib.rs (lines 310-317) validates the four hex digits but writes
neither the `\u` nor the digits, deleting the escape from the output:
on the string body `r\u00ebr"` it emits `"rr"`, not `"r\u00ebr"`. -/
theorem c2_theorem :
    parseString [114, 92, 117, 48, 48, 101, 98, 114, 34]
      = ([34, 114, 114, 34], Except.ok []) ∧
    ([34, 114, 114, 34] : List Nat) ≠ [34, 114, 92, 117, 48, 48, 101, 98, 114, 34] := by
  decide

/-- C3: on the input `{"a":{"H":6},"b":{"H":7}}` with target depth 1 and
the path-array annotation the engine always produces, the run succeeds
and emits exactly the two lines `{"key":["a"],"value":{"H":6}}` then
`{"key":["b"],"value":{"H":7}}` in document order, each terminated by a
newline. -/
theorem c3_theorem :
    unnestToNdjson 30 1
        [123, 34, 97, 34, 58, 123, 34, 72, 34, 58, 54, 125, 44,
         34, 98, 34, 58, 123, 34, 72, 34, 58, 55, 125, 125]
      = ([123, 34, 107, 101, 121, 34, 58, 91, 34, 97, 34, 93, 44, 34, 118, 97, 108,
          117, 101, 34, 58, 123, 34, 72, 34, 58, 54, 125, 125, 10] ++
         [123, 34, 107, 101, 121, 34, 58, 91, 34, 98, 34, 93, 44, 34, 118, 97, 108,
          117, 101, 34, 58, 123, 34, 72, 34, 58, 55, 125, 125, 10], Except.ok ()) ∧
    List.count 10
        ([123, 34, 107, 101, 121, 34, 58, 91, 34, 97, 34, 93, 44, 34, 118, 97, 108,
          117, 101, 34, 58, 123, 34, 72, 34, 58, 54, 125, 125, 10] ++
         [123, 34, 107, 101, 121, 34, 58, 91, 34, 98, 34, 93, 44, 34, 118, 97, 108,
          117, 101, 34, 58, 123, 34, 72, 34, 58, 55, 125, 125, 10]) = 2 := by
  decide

/-- C4 (spec-modelled driver): for every stream interleaving whitespace
runs with top-level documents, each of which the traversal handles by
consuming exactly its bytes and succeeding, the driver loop processes
every document — after each balanced value it skips whitespace and runs
one more traversal unless only whitespace remains — and the output is
the concatenation of the per-document outputs in order. -/
theorem c4_theorem (items : List (List Nat × List Nat × List Nat)) (tailWs : List Nat)
    (sf target lf : Nat) (hws : ∀ b ∈ tailWs, isWs b = true)
    (hspec : streamSpec sf target items tailWs = true) (hlf : items.length < lf) :
    unnestLoop lf sf target (streamOf items tailWs)
      = ((items.map (fun x => x.2.2)).flatten, Except.ok ()) :=
  unnestLoop_stream items tailWs sf target lf hws hspec hlf

theorem c4_witness :
    (∀ b ∈ ([10] : List Nat), isWs b = true) ∧
    streamSpec 20 1
        [([], [123, 34, 97, 34, 58, 53, 125],
          [123, 34, 107, 101, 121, 34, 58, 91, 34, 97, 34, 93, 44, 34, 118, 97, 108,
           117, 101, 34, 58, 53, 125, 10]),
         ([32], [91, 53, 93],
          [123, 34, 107, 101, 121, 34, 58, 91, 48, 93, 44, 34, 118, 97, 108, 117, 101,
           34, 58, 53, 125, 10])] [10] = true ∧
    ([([], [123, 34, 97, 34, 58, 53, 125],
       [123, 34, 107, 101, 121, 34, 58, 91, 34, 97, 34, 93, 44, 34, 118, 97, 108,
        117, 101, 34, 58, 53, 125, 10]),
      ([32], [91, 53, 93],
       [123, 34, 107, 101, 121, 34, 58, 91, 48, 93, 44, 34, 118, 97, 108, 117, 101,
        34, 58, 53, 125, 10])] : List (List Nat × List Nat × List Nat)).length < 3 ∧
    unnestLoop 3 20 1
        (streamOf
          [([], [123, 34, 97, 34, 58, 53, 125],
            [123, 34, 107, 101, 121, 34, 58, 91, 34, 97, 34, 93, 44, 34, 118, 97, 108,
             117, 101, 34, 58, 53, 125, 10]),
           ([32], [91, 53, 93],
            [123, 34, 107, 101, 121, 34, 58, 91, 48, 93, 44, 34, 118, 97, 108, 117,
             101, 34, 58, 53, 125, 10])] [10])
      = (([([], [123, 34, 97, 34, 58, 53, 125],
            [123, 34, 107, 101, 121, 34, 58, 91, 34, 97, 34, 93, 44, 34, 118, 97, 108,
             117, 101, 34, 58, 53, 125, 10]),
           ([32], [91, 53, 93],
            [123, 34, 107, 101, 121, 34, 58, 91, 48, 93, 44, 34, 118, 97, 108, 117,
             101, 34, 58, 53, 125, 10])].map (fun x => x.2.2)).flatten, Except.ok ()) :=
  ⟨by decide, by decide, by decide,
    c4_theorem
      [([], [123, 34, 97, 34, 58, 53, 125],
        [123, 34, 107, 101, 121, 34, 58, 91, 34, 97, 34, 93, 44, 34, 118, 97, 108,
         117, 101, 34, 58, 53, 125, 10]),
       ([32], [91, 53, 93],
        [123, 34, 107, 101, 121, 34, 58, 91, 48, 93, 44, 34, 118, 97, 108, 117, 101,
         34, 58, 53, 125, 10])] [10] 20 1 3 (by decide) (by decide) (by decide)⟩

/-- C5 (spec-modelled driver): a stream that holds only ASCII whitespace
at the top level — including the empty stream — is a clean end-of-stream
for the driver loop: it terminates normally with no output instead of
failing. -/
theorem c5_theorem (input : List Nat) (hws : ∀ b ∈ input, isWs b = true)
    (lf sf target : Nat) (hlf : 0 < lf) :
    unnestLoop lf sf target input = ([], Except.ok ()) :=
  unnestLoop_ws_only input hws lf sf target hlf

theorem c5_witness :
    ((∀ b ∈ ([32, 9, 10, 13] : List Nat), isWs b = true) ∧ (0 : Nat) < 1 ∧
      unnestLoop 1 20 1 [32, 9, 10, 13] = ([], Except.ok ())) ∧
    ((∀ b ∈ ([] : List Nat), isWs b = true) ∧
      unnestLoop 1 20 1 [] = ([], Except.ok ())) :=
  ⟨⟨by decide, by decide, c5_theorem [32, 9, 10, 13] (by decide) 1 20 1 (by decide)⟩,
   ⟨by decide, c5_theorem [] (by decide) 1 20 1 (by decide)⟩⟩

/-- C6, counterexample: the claim says that at every traversal point at
or above the target the path length equals the number of container
descents still pending (`-depth` in the spec's signed encoding, the
countdown `d` of the code).  At the root of a traversal with target 1 on
input `5`, one descent is pending but the path is empty: the recorded
entry is (pending = 1, path length = 0) and 0 ≠ 1. -/
theorem c6_counterexample :
    (handleOne 5 1 [53] []).2.1 = [(1, 0)] ∧ (0 : Nat) ≠ 1 := by decide

/-- C6, amended: at every traversal point recorded in a run started from
the empty path, the pending-descent count never exceeds the target and
the path length equals `target` minus the pending count — i.e. the
number of container descents already made (equivalently `target + depth`
in the signed encoding), not the number still pending; the path is still
pushed before each descent and popped after returning. -/
theorem c6_theorem (f target : Nat) (input : List Nat) (p : Nat × Nat)
    (hp : p ∈ (handleOne f target input []).2.1) :
    p.1 ≤ target ∧ p.2 = target - p.1 := by
  have h := (handle_trace_inv f).1 target input [] p hp
  exact ⟨h.1, by simpa using h.2⟩

theorem c6_witness :
    ((1, 1) ∈ (handleOne 20 2 [123, 34, 97, 34, 58, 123, 34, 98, 34, 58, 53, 125, 125] []).2.1)
      ∧ ((1, 1) : Nat × Nat).1 ≤ 2 ∧ ((1, 1) : Nat × Nat).2 = 2 - 1 :=
  ⟨by decide,
    (c6_theorem 20 2 [123, 34, 97, 34, 58, 123, 34, 98, 34, 58, 53, 125, 125] (1, 1)
      (by decide)).1,
    (c6_theorem 20 2 [123, 34, 97, 34, 58, 123, 34, 98, 34, 58, 53, 125, 125] (1, 1)
      (by decide)).2⟩

/-- C7: each listed malformation is a fatal `InvalidData` error at the
point the traversal reaches it, with no output after the failure point:
a raw `\r` or `\n` inside a string; an escape letter outside the
supported set; a `\u` escape whose four following bytes are not all hex
digits; a missing colon after an object key.  The two closing conjuncts
run the whole engine on documents containing a missing colon and show
the run aborts with exactly the bytes emitted before the failure. -/
theorem c7_theorem :
    (∀ b t, b = 13 ∨ b = 10 → parseString (b :: t) = ([34], Except.error Err.invalidData)) ∧
    (∀ e t, isShortEscape e = false → e ≠ 117 →
      parseString (92 :: e :: t) = ([34], Except.error Err.invalidData)) ∧
    (∀ h1 h2 h3 h4 t, ¬(isHexDigit h1 = true ∧ isHexDigit h2 = true ∧
        isHexDigit h3 = true ∧ isHexDigit h4 = true) →
      parseString (92 :: 117 :: h1 :: h2 :: h3 :: h4 :: t)
        = ([34], Except.error Err.invalidData)) ∧
    (∀ f d kr key c t path, parseString kr = (key, Except.ok (c :: t)) →
      isWs c = false → c ≠ 58 →
      handleObjItems (f + 1) d (34 :: kr) path = ([], [], Except.error Err.invalidData)) ∧
    unnestToNdjson 30 1 [123, 34, 97, 34, 58, 123, 34, 120, 34, 32, 53, 125, 125]
      = ([123, 34, 107, 101, 121, 34, 58, 91, 34, 97, 34, 93, 44, 34, 118, 97, 108,
          117, 101, 34, 58, 123, 34, 120, 34], Except.error Err.invalidData) ∧
    unnestToNdjson 30 1 [123, 34, 97, 34, 32, 53, 125] = ([], Except.error Err.invalidData) :=
  ⟨fun b t hb => parseString_raw_break b hb t,
   fun e t he hu => parseString_bad_escape e he hu t,
   fun h1 h2 h3 h4 t hbad => parseString_bad_hex h1 h2 h3 h4 t hbad,
   fun f d kr key c t path hk hw hc => handleObjItems_missing_colon f d kr key c t path hk hw hc,
   by decide, by decide⟩

theorem c7_witness :
    parseString (10 :: [97]) = ([34], Except.error Err.invalidData) ∧
    parseString (92 :: 120 :: [34]) = ([34], Except.error Err.invalidData) ∧
    parseString (92 :: 117 :: 48 :: 48 :: 103 :: 98 :: [34])
      = ([34], Except.error Err.invalidData) ∧
    handleObjItems 5 1 (34 :: [97, 34, 53, 125]) [] = ([], [], Except.error Err.invalidData) :=
  ⟨c7_theorem.1 10 [97] (Or.inr rfl),
   c7_theorem.2.1 120 [34] (by decide) (by decide),
   c7_theorem.2.2.1 48 48 103 98 [34] (by decide),
   c7_theorem.2.2.2.1 4 1 [97, 34, 53, 125] [34, 97, 34] 53 [125] [] (by decide)
     (by decide) (by decide)⟩

/-- C8: on the inputs `{}` and `[]` with target depth 1, the run
succeeds and writes no bytes at all: an empty container above the target
contains no node at the target depth, so no fragment is opened. -/
theorem c8_theorem :
    unnestToNdjson 10 1 [123, 125] = ([], Except.ok ()) ∧
    unnestToNdjson 10 1 [91, 93] = ([], Except.ok ()) := by decide

/-- C9: `Source::fill` fails (with `UnexpectedEndOfInput`) exactly when
the unread region is empty and the underlying reader has nothing more to
give; in every other case it returns normally — in particular a single
short read is retried through the multi-read helper rather than being
treated as end-of-stream. -/
theorem c9_theorem (st : SourceSt) (hc : ∀ c ∈ st.inner, c ≠ []) :
    fill st = Except.error Err.eof ↔ (st.pending = [] ∧ st.inner = []) :=
  fill_eof_iff st hc

theorem c9_witness :
    (∀ c ∈ ([[53], [54]] : List (List Nat)), c ≠ []) ∧
    ((fill ⟨0, [], [[53], [54]]⟩ = Except.error Err.eof) ↔
      (([] : List Nat) = [] ∧ ([[53], [54]] : List (List Nat)) = [])) ∧
    fill ⟨0, [], [[53], [54]]⟩ = Except.ok ⟨0, [53, 54], []⟩ ∧
    fill ⟨0, [], ([] : List (List Nat))⟩ = Except.error Err.eof :=
  ⟨by decide, c9_theorem ⟨0, [], [[53], [54]]⟩ (by decide), by decide, by decide⟩

/-- C10: when the input ends immediately after a non-string,
non-structural primitive token, end of stream is a valid terminator of
the token: the traversal emits the complete token (as a fragment with
its header and terminator) and succeeds, both when the primitive sits
one level above the target and when it is itself at the target. -/
theorem c10_theorem (c : Nat) (rest : List Nat) (f : Nat)
    (hc : ¬(c = 123 ∨ c = 91 ∨ c = 34))
    (hrest : ∀ b ∈ rest, stopByte b = false) (hf : 2 ≤ f) :
    handleOne f 1 (c :: rest) []
        = (headerBytes [] ++ (c :: rest) ++ [125, 10], [(1, 0)], Except.ok []) ∧
    handleOne f 0 (c :: rest) []
        = (headerBytes [] ++ (c :: rest) ++ [125, 10], [(0, 0)], Except.ok []) := by
  obtain ⟨f1, rfl⟩ : ∃ f1, f = f1 + 2 := ⟨f - 2, by omega⟩
  have hc123 : c ≠ 123 := fun h => hc (Or.inl h)
  have hc91 : c ≠ 91 := fun h => hc (Or.inr (Or.inl h))
  have hc34 : c ≠ 34 := fun h => hc (Or.inr (Or.inr h))
  have hall : rest.all (fun b => !stopByte b) = true := by
    refine List.all_eq_true.mpr ?_
    intro x hx
    simp [hrest x hx]
  have hsp : scanPrimitive c rest = (c :: rest, Except.ok []) := by
    have h := spLoop_rt rest hall [] (by rfl)
    rw [List.append_nil] at h
    simp [scanPrimitive, h]
  constructor
  · rw [handleOne.eq_def]
    simp [hc123, hc91, hc34, hsp]
  · have hso : scanOne (f1 + 1) (c :: rest) = (c :: rest, Except.ok []) := by
      rw [scanOne.eq_def]
      simp [hc123, hc91, hc34, hsp]
    rw [handleOne.eq_def]
    simp [hso]

theorem c10_witness :
    ¬((53 : Nat) = 123 ∨ (53 : Nat) = 91 ∨ (53 : Nat) = 34) ∧
    (∀ b ∈ ([] : List Nat), stopByte b = false) ∧ (2 : Nat) ≤ 2 ∧
    handleOne 2 1 [53] []
      = (headerBytes [] ++ ([53] : List Nat) ++ [125, 10], [(1, 0)], Except.ok []) ∧
    handleOne 2 0 [53] []
      = (headerBytes [] ++ ([53] : List Nat) ++ [125, 10], [(0, 0)], Except.ok []) :=
  ⟨by decide, by decide, by decide,
    (c10_theorem 53 [] 2 (by decide) (by decide) (by decide)).1,
    (c10_theorem 53 [] 2 (by decide) (by decide) (by decide)).2⟩

